import Mathlib

/-!
Verification of the DB (binary-segmentation text/region detection) decoder
of the usls repository, `src/models/db/impl.rs`, against its specification.

Floating-point values of the source are modelled as rationals; the geometric
operations on polygons (area, perimeter, unclip, resample, convex hull,
verify, bounding box, minimum rotated rectangle) and the image operations
(bilinear luma resize, contour extraction) live in modules of the repository
that are outside the analysed sources, so they are abstracted as operation
tables, faithful to the specification's description of their contracts.
-/

namespace Usls

/-- A 2-D point; the source's f32/f64 coordinates are modelled as rationals. -/
abbrev Pt := ℚ × ℚ

/-- Border classification of a contour, from the contour extractor:
an outer boundary or a hole. -/
inductive BorderType where
  | Outer : BorderType
  | Hole : BorderType
deriving DecidableEq, Repr

/-- A contour: its border classification and its integer boundary points. -/
structure Contour where
  borderType : BorderType
  points : List (Int × Int)
deriving DecidableEq, Repr

/-- A polygon: ordered vertices plus a class id. -/
structure Polygon where
  points : List Pt
  id : Nat := 0
deriving DecidableEq, Repr

/-- An axis-aligned box: position, width, height, confidence, class id. -/
structure Bbox where
  xmin : ℚ := 0
  ymin : ℚ := 0
  w : ℚ := 0
  h : ℚ := 0
  confidence : ℚ := 0
  id : Nat := 0
deriving DecidableEq, Repr

/-- Width accessor of an axis-aligned box. -/
def Bbox.width (b : Bbox) : ℚ := b.w

/-- Height accessor of an axis-aligned box. -/
def Bbox.height (b : Bbox) : ℚ := b.h

/-- Area of an axis-aligned box. -/
def Bbox.area (b : Bbox) : ℚ := b.w * b.h

/-- A minimum-bounding (rotated) box: center, size, angle, confidence, id. -/
structure Mbr where
  cx : ℚ := 0
  cy : ℚ := 0
  w : ℚ := 0
  h : ℚ := 0
  angle : ℚ := 0
  confidence : ℚ := 0
  id : Nat := 0
deriving DecidableEq, Repr

/-- Modelled from the spec: the Polygon geometry operations (area, perimeter,
unclip/dilate, resample to a vertex budget, convex hull, verify, bounding box,
minimum rotated rectangle) are implemented outside the analysed sources; they
are abstracted as an operation table over vertex lists, per the spec's
Polygon Refiner contract. -/
structure Geom where
  area : List Pt → ℚ
  perimeter : List Pt → ℚ
  unclip : List Pt → ℚ → ℚ → ℚ → List Pt
  resample : List Pt → Nat → List Pt
  convexHull : List Pt → List Pt
  verify : List Pt → List Pt
  bboxOf : List Pt → Option Bbox
  mbrOf : List Pt → Option Mbr

/-- Modelled from the spec: the external image operations used by the decoder
but implemented outside the analysed sources — bilinear upscale of a luma
buffer from model resolution to original resolution, and contour extraction
from a grayscale mask at a given foreground threshold. -/
structure Ext where
  resize : List Nat → Nat → Nat → Nat → Nat → List Nat
  findContours : List Nat → Nat → Nat → Nat → List Contour

/-- The DB decoder's configuration fields, as read in `DB::new`. -/
structure DBCfg where
  confs : List ℚ
  unclip_r : ℚ
  binary_thresh : ℚ
  min_width : ℚ
  min_height : ℚ
  width : Nat
  height : Nat
deriving DecidableEq, Repr

/-- Per-image scale descriptor: original size and the preprocessing scale
factor, as recorded by the processor. -/
structure ImgInfo where
  height : Nat
  width : Nat
  scale : ℚ
deriving DecidableEq, Repr

/-- Per-image result record: bag of boxes, polygons and rotated boxes. -/
structure Y where
  bboxes : List Bbox := []
  polygons : List Polygon := []
  mbrs : List Mbr := []
deriving DecidableEq, Repr

/-- Rust's f32::round — round to nearest, ties away from zero. -/
def rustRound (q : ℚ) : Int :=
  if 0 ≤ q then ⌊q + 1 / 2⌋ else ⌈q - 1 / 2⌉

/-- Rust's saturating cast `as u8` from a float: truncate toward zero and
clamp into [0, 255]. -/
def toU8 (q : ℚ) : Nat :=
  if q ≤ 0 then 0 else min 255 ⌊q⌋.toNat

/-- Per-pixel binarization of `DB::postprocess`: a probability `x` maps to 0
when `x ≤ binary_thresh`, and to `(x * 255.0) as u8` otherwise. -/
def binarizePixel (thresh x : ℚ) : Nat :=
  if x ≤ thresh then 0 else toU8 (x * 255)

/-- The grayscale mask built by `DB::postprocess` from one probability map. -/
def dbMask (cfg : DBCfg) (luma : List ℚ) : List Nat :=
  luma.map (binarizePixel cfg.binary_thresh)

/-- Foreground threshold handed to `find_contours_with_threshold`. -/
def contourThreshold : Nat := 1

/-- Vertices of the polygon constructed from a contour's integer points. -/
def contourPts (c : Contour) : List Pt :=
  c.points.map (fun p => ((p.1 : ℚ), (p.2 : ℚ)))

/-- The per-contour body of `DB::postprocess`: discard degenerate holes,
build a polygon, unclip by the ratio-scaled delta, resample to 50 vertices,
take the convex hull, verify, then derive the box (filtered by minimum size
and class-0 confidence) and, when available, the rotated box. -/
def decodeContour (G : Geom) (cfg : DBCfg) (info : ImgInfo) (c : Contour) :
    Option (Polygon × Bbox × Option Mbr) :=
  if c.borderType = BorderType.Hole ∧ c.points.length ≤ 2 then
    none
  else
    let pts0 := contourPts c
    let delta := G.area pts0 * (rustRound info.scale : ℚ) * cfg.unclip_r /
      G.perimeter pts0
    let pts := G.verify (G.convexHull (G.resample
      (G.unclip pts0 delta (info.width : ℚ) (info.height : ℚ)) 50))
    match G.bboxOf pts with
    | none => none
    | some bb =>
      if bb.height < cfg.min_height ∨ bb.width < cfg.min_width then
        none
      else
        let confidence := G.area pts / bb.area
        if confidence < cfg.confs.getD 0 0 then
          none
        else
          some ({ points := pts, id := 0 },
            { bb with confidence := confidence, id := 0 },
            (G.mbrOf pts).map (fun m => { m with confidence := confidence, id := 0 }))

/-- The Polygon Refiner stage alone: the per-contour body of
`DB::postprocess` without the extraction-stage degenerate-hole filter. -/
def refineContour (G : Geom) (cfg : DBCfg) (info : ImgInfo) (c : Contour) :
    Option (Polygon × Bbox × Option Mbr) :=
  let pts0 := contourPts c
  let delta := G.area pts0 * (rustRound info.scale : ℚ) * cfg.unclip_r /
    G.perimeter pts0
  let pts := G.verify (G.convexHull (G.resample
    (G.unclip pts0 delta (info.width : ℚ) (info.height : ℚ)) 50))
  match G.bboxOf pts with
  | none => none
  | some bb =>
    if bb.height < cfg.min_height ∨ bb.width < cfg.min_width then
      none
    else
      let confidence := G.area pts / bb.area
      if confidence < cfg.confs.getD 0 0 then
        none
      else
        some ({ points := pts, id := 0 },
          { bb with confidence := confidence, id := 0 },
          (G.mbrOf pts).map (fun m => { m with confidence := confidence, id := 0 }))

/-- The fold step of the aggregation: push the candidate's polygon and box,
and its rotated box when present. -/
def pushCandidate (acc : List Polygon × List Bbox × List Mbr)
    (r : Polygon × Bbox × Option Mbr) : List Polygon × List Bbox × List Mbr :=
  (acc.1 ++ [r.1], acc.2.1 ++ [r.2.1], acc.2.2 ++ r.2.2.toList)

/-- The fold/reduce aggregation of `DB::postprocess` over one image's
contours: each surviving candidate pushes its polygon and box, and its
rotated box when present. -/
def decodeContours (G : Geom) (cfg : DBCfg) (info : ImgInfo)
    (cs : List Contour) : List Polygon × List Bbox × List Mbr :=
  cs.foldl
    (fun acc c =>
      match decodeContour G cfg info c with
      | none => acc
      | some r => pushCandidate acc r)
    ([], [], [])

/-- The per-image body of `DB::postprocess`: binarize the probability map,
upscale it to original resolution, build the image buffer (fails when the
buffer is smaller than the target size), extract contours at threshold 1,
and aggregate the decoded candidates into a result record. -/
def decodeImage (E : Ext) (G : Geom) (cfg : DBCfg) (info : ImgInfo)
    (luma : List ℚ) : Option Y :=
  let v := dbMask cfg luma
  let resized := E.resize v cfg.width cfg.height info.width info.height
  if info.width * info.height ≤ resized.length then
    let contours := E.findContours resized info.width info.height contourThreshold
    let r := decodeContours G cfg info contours
    some { bboxes := r.2.1, polygons := r.1, mbrs := r.2.2 }
  else
    none

/-- `DB::postprocess` over a batch: one probability map and scale descriptor
per image, decoded independently; images whose per-image decode fails are
filtered out of the collected result. -/
def postprocess (E : Ext) (G : Geom) (cfg : DBCfg)
    (xs : List (ImgInfo × List ℚ)) : List Y :=
  xs.filterMap (fun x => decodeImage E G cfg x.1 x.2)

/-- Modelled from the spec: the parallel fan-out of `DB::postprocess` with an
explicit worker completion order `σ` — each worker emits its input index with
its result, and the collection is index-preserving regardless of the order in
which workers complete. -/
def scheduledPostprocess (E : Ext) (G : Geom) (cfg : DBCfg)
    (xs : List (ImgInfo × List ℚ)) (σ : List Nat) : List Y :=
  let results :=
    σ.map (fun i => (i, (xs.get? i).bind (fun x => decodeImage E G cfg x.1 x.2)))
  (List.range xs.length).filterMap (fun i => (results.lookup i).join)

/-- The refined vertex list a contour yields inside `DB::postprocess`:
unclip by the ratio-scaled delta, resample to 50 vertices, convex hull,
verify, in that order. -/
def refinedPts (G : Geom) (cfg : DBCfg) (info : ImgInfo) (c : Contour) :
    List Pt :=
  G.verify (G.convexHull (G.resample
    (G.unclip (contourPts c)
      (G.area (contourPts c) * (rustRound info.scale : ℚ) * cfg.unclip_r /
        G.perimeter (contourPts c))
      (info.width : ℚ) (info.height : ℚ)) 50))

/-- Modelled from the spec: the default threshold the Confidence Table uses
when fewer thresholds than classes are supplied (its value is not fixed by
the analysed sources). -/
def confDefault : ℚ := 3 / 10

/-- Modelled from the spec: the Confidence Table constructor `DynConf::new` —
per-class thresholds, indexable by class id, defaulting when fewer thresholds
than classes are supplied. -/
def dynConfNew (confs : List ℚ) (n : Nat) : List ℚ :=
  if n ≤ confs.length then confs.take n
  else confs ++ List.replicate (n - confs.length) confDefault

/-- The option fields read by `DB::new`; every field is optional except the
per-class confidence list (empty by default). -/
structure Options where
  class_confs : List ℚ := []
  binary_thresh : Option ℚ := none
  unclip_r : Option ℚ := none
  min_width : Option ℚ := none
  min_height : Option ℚ := none
  model_height : Option Nat := none
  model_width : Option Nat := none
deriving DecidableEq, Repr

/-- `DB::new`: each configuration field is read from the options with its
default (`binary_thresh` 0.2, `unclip_ratio` 1.5, `min_width` 12.0,
`min_height` 5.0, model size 960); engine and processor construction are
external. No range validation is performed on the supplied values. -/
def DB.new (o : Options) : Except String DBCfg :=
  Except.ok
    { confs := dynConfNew o.class_confs 1
      binary_thresh := o.binary_thresh.getD (2 / 10)
      unclip_r := o.unclip_r.getD (3 / 2)
      min_width := o.min_width.getD 12
      min_height := o.min_height.getD 5
      width := o.model_width.getD 960
      height := o.model_height.getD 960 }

/-! Concrete values used to exercise the decoder. -/

/-- Witness area operation: constant 100. -/
def gAreaWit : List Pt → ℚ := fun _ => 100

/-- Witness verify operation, with the spec's verification semantics over
the witness area operation. -/
def gVerifyWit : List Pt → List Pt :=
  fun pts => if 3 ≤ pts.length ∧ 0 < gAreaWit pts then pts else []

/-- Witness bounding-box operation: none on the empty vertex list, a fixed
20-by-10 box otherwise. -/
def gBboxWit : List Pt → Option Bbox :=
  fun pts => if pts = [] then none else some { w := 20, h := 10 }

/-- Witness geometry table. -/
def geomWit : Geom where
  area := gAreaWit
  perimeter := fun _ => 40
  unclip := fun pts _ _ _ => pts
  resample := fun _ n => List.replicate n ((0 : ℚ), (0 : ℚ))
  convexHull := fun pts => pts
  verify := gVerifyWit
  bboxOf := gBboxWit
  mbrOf := fun _ => some { w := 20, h := 10 }

/-- Witness contour: an outer boundary with four points. -/
def contourWit : Contour where
  borderType := BorderType.Outer
  points := [(0, 0), (10, 0), (10, 10), (0, 10)]

/-- Witness external-operation table: the upscale returns a buffer of exactly
the target size and extraction returns the one witness contour. -/
def extWit : Ext where
  resize := fun _ _ _ dw dh => List.replicate (dw * dh) 0
  findContours := fun _ _ _ _ => [contourWit]

/-- Witness configuration. -/
def cfgWit : DBCfg where
  confs := [3 / 10]
  unclip_r := 3 / 2
  binary_thresh := 1 / 5
  min_width := 12
  min_height := 5
  width := 4
  height := 4

/-- Witness scale descriptor: a 4-by-4 original image with scale factor 2. -/
def infoWit : ImgInfo where
  height := 4
  width := 4
  scale := 2

/-- Witness probability map. -/
def lumaWit : List ℚ := List.replicate 16 (1 / 2)

/-- Witness singleton batch. -/
def xs1Wit : List (ImgInfo × List ℚ) := [(infoWit, lumaWit)]

/-- Witness two-image batch. -/
def xsWit : List (ImgInfo × List ℚ) := [(infoWit, lumaWit), (infoWit, lumaWit)]

/-- The polygon the witness contour decodes to. -/
def pWit : Polygon where
  points := List.replicate 50 ((0 : ℚ), (0 : ℚ))
  id := 0

/-- The box the witness contour decodes to. -/
def bWit : Bbox where
  w := 20
  h := 10
  confidence := 1 / 2
  id := 0

/-- The rotated box the witness contour decodes to. -/
def mbrWit : Mbr where
  w := 20
  h := 10
  confidence := 1 / 2
  id := 0

/-- The optional rotated box of the witness candidate. -/
def mOptWit : Option Mbr := some mbrWit

/-- The result record the witness image decodes to. -/
def yWit : Y where
  bboxes := [bWit]
  polygons := [pWit]
  mbrs := [mbrWit]

/-- Options supplying a negative binary threshold. -/
def optsNeg : Options where
  binary_thresh := some (-1)

/-- The configuration `DB::new` builds from `optsNeg`. -/
def cfgNeg : DBCfg where
  confs := [confDefault]
  unclip_r := 3 / 2
  binary_thresh := -1
  min_width := 12
  min_height := 5
  width := 960
  height := 960

/-! General list facts used by the claim proofs. -/

theorem lookup_map_pair {β : Type} (f : Nat → β) (σ : List Nat) (i : Nat)
    (h : i ∈ σ) :
    (σ.map (fun j => (j, f j))).lookup i = some (f i) := by
  induction σ with
  | nil => cases h
  | cons j σ ih =>
    rw [List.map_cons, List.lookup_cons]
    by_cases hij : i = j
    · subst hij
      simp
    · have hmem : i ∈ σ := by
        rcases List.mem_cons.mp h with h' | h'
        · exact absurd h' hij
        · exact h'
      rw [beq_false_of_ne hij]
      exact ih hmem

theorem filterMap_range_get {α β : Type} (g : α → Option β) (xs : List α) :
    (List.range xs.length).filterMap (fun i => (xs.get? i).bind g) =
      xs.filterMap g := by
  induction xs with
  | nil => simp
  | cons a xs ih =>
    rw [List.length_cons, List.range_succ_eq_map, List.filterMap_cons]
    simp only [List.get?_cons_zero, Option.some_bind, List.filterMap_map]
    have hcomp :
        ((fun i => ((a :: xs).get? i).bind g) ∘ Nat.succ) =
          fun i => (xs.get? i).bind g := by
      funext i
      simp
    rw [hcomp, ih]
    cases hga : g a <;> simp [hga]

theorem filterMap_total {α β : Type} (f : α → Option β) (l : List α)
    (h : ∀ x ∈ l, (f x).isSome = true) :
    (l.filterMap f).length = l.length ∧
      ∀ i x, l.get? i = some x → (l.filterMap f).get? i = f x := by
  induction l with
  | nil => simp
  | cons a l ih =>
    obtain ⟨b, hb⟩ := Option.isSome_iff_exists.mp (h a (List.mem_cons_self a l))
    obtain ⟨ih1, ih2⟩ := ih fun x hx => h x (List.mem_cons_of_mem a hx)
    constructor
    · rw [List.filterMap_cons, hb, List.length_cons, List.length_cons, ih1]
    · intro i x hx
      cases i with
      | zero =>
        rw [List.get?_cons_zero] at hx
        injection hx with hx
        subst hx
        rw [List.filterMap_cons, hb, List.get?_cons_zero]
      | succ i =>
        rw [List.get?_cons_succ] at hx
        rw [List.filterMap_cons, hb, List.get?_cons_succ]
        exact ih2 i x hx

/-! Characterizations of the decode pipeline. -/

theorem decodeContours_eq (G : Geom) (cfg : DBCfg) (info : ImgInfo)
    (cs : List Contour) :
    decodeContours G cfg info cs =
      ((cs.filterMap (decodeContour G cfg info)).map Prod.fst,
       (cs.filterMap (decodeContour G cfg info)).map (fun r => r.2.1),
       (cs.filterMap (decodeContour G cfg info)).filterMap (fun r => r.2.2)) := by
  suffices hgen : ∀ (acc : List Polygon × List Bbox × List Mbr),
      cs.foldl
        (fun acc c =>
          match decodeContour G cfg info c with
          | none => acc
          | some r => pushCandidate acc r)
        acc =
      (acc.1 ++ (cs.filterMap (decodeContour G cfg info)).map Prod.fst,
       acc.2.1 ++ (cs.filterMap (decodeContour G cfg info)).map (fun r => r.2.1),
       acc.2.2 ++
         (cs.filterMap (decodeContour G cfg info)).filterMap (fun r => r.2.2)) by
    simpa [decodeContours] using hgen ([], [], [])
  induction cs with
  | nil =>
    intro acc
    simp
  | cons c cs ih =>
    intro acc
    rw [List.foldl_cons]
    cases h : decodeContour G cfg info c with
    | none =>
      simp only [h, List.filterMap_cons]
      exact ih acc
    | some r =>
      simp only [h, List.filterMap_cons]
      rw [ih]
      obtain ⟨p, bb, mo⟩ := r
      cases mo <;> simp [pushCandidate, List.append_assoc]

theorem decodeContour_inv (G : Geom) (cfg : DBCfg) (info : ImgInfo)
    (c : Contour) (p : Polygon) (b : Bbox) (m : Option Mbr)
    (h : decodeContour G cfg info c = some (p, b, m)) :
    ¬(c.borderType = BorderType.Hole ∧ c.points.length ≤ 2) ∧
    p.points = refinedPts G cfg info c ∧ p.id = 0 ∧
    ∃ bb, G.bboxOf (refinedPts G cfg info c) = some bb ∧
      ¬(bb.height < cfg.min_height ∨ bb.width < cfg.min_width) ∧
      ¬ G.area (refinedPts G cfg info c) / bb.area < cfg.confs.getD 0 0 ∧
      b = { bb with
              confidence := G.area (refinedPts G cfg info c) / bb.area,
              id := 0 } ∧
      m = (G.mbrOf (refinedPts G cfg info c)).map
        (fun x => { x with
            confidence := G.area (refinedPts G cfg info c) / bb.area,
            id := 0 }) := by
  simp only [decodeContour] at h
  rw [show G.verify (G.convexHull (G.resample
        (G.unclip (contourPts c)
          (G.area (contourPts c) * (rustRound info.scale : ℚ) * cfg.unclip_r /
            G.perimeter (contourPts c))
          (info.width : ℚ) (info.height : ℚ)) 50)) =
      refinedPts G cfg info c from rfl] at h
  split at h
  · exact absurd h (by simp)
  · rename_i hguard
    refine ⟨hguard, ?_⟩
    split at h
    · exact absurd h (by simp)
    · rename_i bb hbb
      split at h
      · exact absurd h (by simp)
      · rename_i hsz
        split at h
        · exact absurd h (by simp)
        · rename_i hcf
          simp only [Option.some.injEq, Prod.mk.injEq] at h
          obtain ⟨hp, hb, hm⟩ := h
          subst hp hb hm
          exact ⟨rfl, rfl, bb, hbb, hsz, hcf, rfl, rfl⟩

theorem decodeContour_ids (G : Geom) (cfg : DBCfg) (info : ImgInfo)
    (c : Contour) (p : Polygon) (b : Bbox) (m : Option Mbr)
    (h : decodeContour G cfg info c = some (p, b, m)) :
    p.id = 0 ∧ b.id = 0 ∧ ∀ x ∈ m, x.id = 0 := by
  obtain ⟨-, -, hpid, bb, -, -, -, hb, hm⟩ :=
    decodeContour_inv G cfg info c p b m h
  subst hb hm
  refine ⟨hpid, rfl, ?_⟩
  intro x hx
  cases hmo : G.mbrOf (refinedPts G cfg info c) with
  | none =>
    rw [hmo] at hx
    simp at hx
  | some w =>
    rw [hmo, Option.map_some', Option.mem_def, Option.some.injEq] at hx
    subst hx
    rfl

theorem decodeImage_inv (E : Ext) (G : Geom) (cfg : DBCfg) (info : ImgInfo)
    (luma : List ℚ) (y : Y)
    (h : decodeImage E G cfg info luma = some y) :
    ∃ cs : List Contour,
      y.polygons = (cs.filterMap (decodeContour G cfg info)).map Prod.fst ∧
      y.bboxes = (cs.filterMap (decodeContour G cfg info)).map (fun r => r.2.1) ∧
      y.mbrs =
        (cs.filterMap (decodeContour G cfg info)).filterMap (fun r => r.2.2) := by
  simp only [decodeImage] at h
  split at h
  · simp only [Option.some.injEq] at h
    subst h
    refine ⟨E.findContours
      (E.resize (dbMask cfg luma) cfg.width cfg.height info.width info.height)
      info.width info.height contourThreshold, ?_, ?_, ?_⟩ <;>
      rw [decodeContours_eq]
  · exact absurd h (by simp)

theorem decodeImage_total (E : Ext) (G : Geom) (cfg : DBCfg) (info : ImgInfo)
    (luma : List ℚ)
    (hres : ∀ v dw dh,
      dw * dh ≤ (E.resize v cfg.width cfg.height dw dh).length) :
    (decodeImage E G cfg info luma).isSome = true := by
  simp only [decodeImage]
  rw [if_pos (hres _ _ _)]
  rfl

theorem decodeContour_fields (G : Geom) (cfg cfg' : DBCfg) (info : ImgInfo)
    (c : Contour)
    (h1 : cfg'.unclip_r = cfg.unclip_r) (h2 : cfg'.min_height = cfg.min_height)
    (h3 : cfg'.min_width = cfg.min_width)
    (h4 : cfg'.confs.getD 0 0 = cfg.confs.getD 0 0) :
    decodeContour G cfg' info c = decodeContour G cfg info c := by
  unfold decodeContour
  rw [h1, h2, h3, h4]

theorem decodeImage_confs (E : Ext) (G : Geom) (cfg : DBCfg) (info : ImgInfo)
    (luma : List ℚ) (confs2 : List ℚ)
    (h0 : cfg.confs.getD 0 0 = confs2.getD 0 0) :
    decodeImage E G { cfg with confs := confs2 } info luma =
      decodeImage E G cfg info luma := by
  simp only [decodeImage, dbMask]
  rw [decodeContours_eq, decodeContours_eq]
  rw [List.filterMap_congr
    (fun c _ => decodeContour_fields G cfg { cfg with confs := confs2 }
      info c rfl rfl rfl h0.symm)]

/-! The claims. -/

/-- C1: `DB::postprocess` on a batch of N images returns exactly N result
records, the record at index i being the one decoded from input image i, and
the index-preserving collection makes the output independent of the
completion order of the parallel workers. -/
theorem postprocess_batch_order (E : Ext) (G : Geom) (cfg : DBCfg)
    (xs : List (ImgInfo × List ℚ))
    (hres : ∀ v dw dh,
      dw * dh ≤ (E.resize v cfg.width cfg.height dw dh).length) :
    (postprocess E G cfg xs).length = xs.length ∧
    (∀ i x, xs.get? i = some x →
      (postprocess E G cfg xs).get? i = decodeImage E G cfg x.1 x.2) ∧
    ∀ σ, List.Perm σ (List.range xs.length) →
      scheduledPostprocess E G cfg xs σ = postprocess E G cfg xs := by
  have htot : ∀ x ∈ xs, (decodeImage E G cfg x.1 x.2).isSome = true :=
    fun x _ => decodeImage_total E G cfg x.1 x.2 hres
  obtain ⟨h1, h2⟩ :=
    filterMap_total (fun x => decodeImage E G cfg x.1 x.2) xs htot
  refine ⟨h1, h2, ?_⟩
  intro σ hσ
  have hcong : ∀ i ∈ List.range xs.length,
      ((σ.map (fun j =>
        (j, (xs.get? j).bind (fun x => decodeImage E G cfg x.1 x.2)))).lookup
          i).join =
        (xs.get? i).bind (fun x => decodeImage E G cfg x.1 x.2) := by
    intro i hi
    rw [lookup_map_pair _ σ i (hσ.mem_iff.mpr hi)]
    rfl
  simp only [scheduledPostprocess]
  rw [List.filterMap_congr hcong]
  exact filterMap_range_get _ xs

/-- C1 witness: a concrete two-image batch with reversed completion order. -/
theorem postprocess_batch_order_witness :
    (postprocess extWit geomWit cfgWit xsWit).length = xsWit.length ∧
    scheduledPostprocess extWit geomWit cfgWit xsWit [1, 0] =
      postprocess extWit geomWit cfgWit xsWit := by
  have h := postprocess_batch_order extWit geomWit cfgWit xsWit
    (by intro v dw dh; simp [extWit])
  exact ⟨h.1, h.2.2 [1, 0] (by with_unfolding_all decide)⟩

/-- C2: for every accepted candidate of the decode pipeline, the box's
confidence is recomputed as refined-polygon area divided by box area, and
the rotated box derived from the same polygon carries this same value. -/
theorem confidence_recomputed (G : Geom) (cfg : DBCfg) (info : ImgInfo)
    (c : Contour) (p : Polygon) (b : Bbox) (m : Option Mbr)
    (h : decodeContour G cfg info c = some (p, b, m)) :
    b.confidence = G.area p.points / b.area ∧
    ∀ x ∈ m, x.confidence = b.confidence := by
  obtain ⟨-, hpts, -, bb, -, -, -, hb, hm⟩ :=
    decodeContour_inv G cfg info c p b m h
  subst hb hm
  constructor
  · rw [hpts]
    rfl
  · intro x hx
    cases hmo : G.mbrOf (refinedPts G cfg info c) with
    | none =>
      rw [hmo] at hx
      simp at hx
    | some w =>
      rw [hmo, Option.map_some', Option.mem_def, Option.some.injEq] at hx
      subst hx
      rfl

/-- C2 witness at the concrete witness candidate. -/
theorem confidence_recomputed_witness :
    bWit.confidence = geomWit.area pWit.points / bWit.area ∧
    ∀ x ∈ mOptWit, x.confidence = bWit.confidence :=
  confidence_recomputed geomWit cfgWit infoWit contourWit pWit bWit mOptWit
    (by with_unfolding_all decide)

/-- C3: every axis-aligned box in a result record of `DB::postprocess` has
width at least `min_width`, height at least `min_height`, and confidence at
least the class-0 threshold; candidates failing any of these are absent. -/
theorem box_filters (E : Ext) (G : Geom) (cfg : DBCfg)
    (xs : List (ImgInfo × List ℚ)) (y : Y) (hy : y ∈ postprocess E G cfg xs)
    (b : Bbox) (hb : b ∈ y.bboxes) :
    cfg.min_width ≤ b.width ∧ cfg.min_height ≤ b.height ∧
    cfg.confs.getD 0 0 ≤ b.confidence := by
  obtain ⟨x, -, hdec⟩ := List.mem_filterMap.mp hy
  obtain ⟨cs, -, hbs, -⟩ := decodeImage_inv E G cfg x.1 x.2 y hdec
  rw [hbs] at hb
  obtain ⟨r, hr, hrb⟩ := List.mem_map.mp hb
  obtain ⟨c, -, hc⟩ := List.mem_filterMap.mp hr
  obtain ⟨p1, b1, m1⟩ := r
  simp only at hrb
  subst hrb
  obtain ⟨-, -, -, bb, -, hsz, hcf, hbeq, -⟩ :=
    decodeContour_inv G cfg x.1 c p1 b1 m1 hc
  push_neg at hsz hcf
  subst hbeq
  exact ⟨hsz.2, hsz.1, hcf⟩

/-- C3 witness at the concrete witness record and box. -/
theorem box_filters_witness :
    cfgWit.min_width ≤ bWit.width ∧ cfgWit.min_height ≤ bWit.height ∧
    cfgWit.confs.getD 0 0 ≤ bWit.confidence :=
  box_filters extWit geomWit cfgWit xs1Wit yWit (by with_unfolding_all decide)
    bWit (by with_unfolding_all decide)

/-- C5: each accepted candidate's polygon is the result of unclip with
delta equal to area times the rounded scale ratio times the unclip ratio
divided by perimeter, then resample to 50 vertices, then convex hull, then
verify, in this exact order. -/
theorem refine_order_delta (G : Geom) (cfg : DBCfg) (info : ImgInfo)
    (c : Contour) (p : Polygon) (b : Bbox) (m : Option Mbr)
    (h : decodeContour G cfg info c = some (p, b, m)) :
    p.points = G.verify (G.convexHull (G.resample
      (G.unclip (contourPts c)
        (G.area (contourPts c) * (rustRound info.scale : ℚ) * cfg.unclip_r /
          G.perimeter (contourPts c))
        (info.width : ℚ) (info.height : ℚ)) 50)) :=
  (decodeContour_inv G cfg info c p b m h).2.1

/-- C5 witness at the concrete witness candidate. -/
theorem refine_order_delta_witness :
    pWit.points = geomWit.verify (geomWit.convexHull (geomWit.resample
      (geomWit.unclip (contourPts contourWit)
        (geomWit.area (contourPts contourWit) *
          (rustRound infoWit.scale : ℚ) * cfgWit.unclip_r /
          geomWit.perimeter (contourPts contourWit))
        (infoWit.width : ℚ) (infoWit.height : ℚ)) 50)) :=
  refine_order_delta geomWit cfgWit infoWit contourWit pWit bWit mOptWit
    (by with_unfolding_all decide)

/-- C8: a contour is discarded at the extraction stage exactly when it is a
hole with at most two points; every other contour — outer boundaries with at
most two points included — is handed unchanged to the refinement stage,
which alone applies confidence and size filtering. -/
theorem extraction_hole_filter (G : Geom) (cfg : DBCfg) (info : ImgInfo)
    (c : Contour) :
    decodeContour G cfg info c =
      if c.borderType = BorderType.Hole ∧ c.points.length ≤ 2 then none
      else refineContour G cfg info c := by
  unfold decodeContour refineContour
  split <;> rfl

/-- C7: with the specified refiner semantics — resample yields exactly 50
vertices, the convex hull never adds vertices, verify rejects polygons with
fewer than 3 vertices or non-positive area, and an empty polygon has no
bounding box — every accepted polygon has between 3 and 50 vertices, hitting
50 unless the hull reduced it. -/
theorem polygon_vertex_budget (G : Geom) (cfg : DBCfg) (info : ImgInfo)
    (c : Contour) (p : Polygon) (b : Bbox) (m : Option Mbr)
    (hres : ∀ pts, (G.resample pts 50).length = 50)
    (hhull : ∀ pts, (G.convexHull pts).length ≤ pts.length)
    (hver : ∀ pts, G.verify pts =
      if 3 ≤ pts.length ∧ 0 < G.area pts then pts else [])
    (hbbe : G.bboxOf [] = none)
    (h : decodeContour G cfg info c = some (p, b, m)) :
    3 ≤ p.points.length ∧ p.points.length ≤ 50 := by
  obtain ⟨-, hpts, -, bb, hbbx, -, -, -, -⟩ :=
    decodeContour_inv G cfg info c p b m h
  rw [hpts]
  unfold refinedPts
  rw [hver]
  split
  · rename_i hcond
    exact ⟨hcond.1, (hhull _).trans (le_of_eq (hres _))⟩
  · rename_i hcond
    exfalso
    have hempty : refinedPts G cfg info c = [] := by
      unfold refinedPts
      rw [hver]
      exact if_neg hcond
    rw [hempty, hbbe] at hbbx
    cases hbbx

/-- C7 witness at the concrete witness candidate. -/
theorem polygon_vertex_budget_witness :
    3 ≤ pWit.points.length ∧ pWit.points.length ≤ 50 :=
  polygon_vertex_budget geomWit cfgWit infoWit contourWit pWit bWit mOptWit
    (fun pts => by simp [geomWit])
    (fun pts => by simp [geomWit])
    (fun pts => rfl)
    (by simp [geomWit, gBboxWit])
    (by with_unfolding_all decide)

/-- C9: in every result record of `DB::postprocess` the number of polygons
equals the number of boxes, and the number of rotated boxes is at most that
common count. -/
theorem per_record_counts (E : Ext) (G : Geom) (cfg : DBCfg)
    (xs : List (ImgInfo × List ℚ)) (y : Y)
    (hy : y ∈ postprocess E G cfg xs) :
    y.polygons.length = y.bboxes.length ∧
    y.mbrs.length ≤ y.polygons.length := by
  obtain ⟨x, -, hdec⟩ := List.mem_filterMap.mp hy
  obtain ⟨cs, hps, hbs, hms⟩ := decodeImage_inv E G cfg x.1 x.2 y hdec
  rw [hps, hbs, hms]
  constructor
  · rw [List.length_map, List.length_map]
  · calc ((cs.filterMap (decodeContour G cfg x.1)).filterMap
          (fun r => r.2.2)).length
        ≤ (cs.filterMap (decodeContour G cfg x.1)).length :=
          List.length_filterMap_le _ _
      _ = _ := (List.length_map _ _).symm

/-- C9 witness at the concrete witness record. -/
theorem per_record_counts_witness :
    yWit.polygons.length = yWit.bboxes.length ∧
    yWit.mbrs.length ≤ yWit.polygons.length :=
  per_record_counts extWit geomWit cfgWit xs1Wit yWit
    (by with_unfolding_all decide)

/-- C10: every polygon, box and rotated box produced by `DB::postprocess`
carries class id 0; only the class-0 entry of the confidence table affects
the output, however many thresholds the options supplied; and `DB::new`
builds a one-entry table. -/
theorem class_zero_only (E : Ext) (G : Geom) (cfg : DBCfg)
    (xs : List (ImgInfo × List ℚ)) (confs2 : List ℚ)
    (h0 : cfg.confs.getD 0 0 = confs2.getD 0 0) :
    postprocess E G { cfg with confs := confs2 } xs =
      postprocess E G cfg xs ∧
    (∀ y ∈ postprocess E G cfg xs,
      (∀ p ∈ y.polygons, p.id = 0) ∧ (∀ b ∈ y.bboxes, b.id = 0) ∧
      ∀ x ∈ y.mbrs, x.id = 0) ∧
    ∀ o cfg0, DB.new o = Except.ok cfg0 → cfg0.confs.length = 1 := by
  refine ⟨?_, ?_, ?_⟩
  · unfold postprocess
    exact List.filterMap_congr
      (fun x _ => decodeImage_confs E G cfg x.1 x.2 confs2 h0)
  · intro y hy
    obtain ⟨x, -, hdec⟩ := List.mem_filterMap.mp hy
    obtain ⟨cs, hps, hbs, hms⟩ := decodeImage_inv E G cfg x.1 x.2 y hdec
    refine ⟨?_, ?_, ?_⟩
    · intro p hp
      rw [hps] at hp
      obtain ⟨r, hr, hrp⟩ := List.mem_map.mp hp
      obtain ⟨c, -, hc⟩ := List.mem_filterMap.mp hr
      obtain ⟨p1, b1, m1⟩ := r
      simp only at hrp
      subst hrp
      exact (decodeContour_ids G cfg x.1 c p1 b1 m1 hc).1
    · intro b hb
      rw [hbs] at hb
      obtain ⟨r, hr, hrb⟩ := List.mem_map.mp hb
      obtain ⟨c, -, hc⟩ := List.mem_filterMap.mp hr
      obtain ⟨p1, b1, m1⟩ := r
      simp only at hrb
      subst hrb
      exact (decodeContour_ids G cfg x.1 c p1 b1 m1 hc).2.1
    · intro w hw
      rw [hms] at hw
      obtain ⟨r, hr, hrw⟩ := List.mem_filterMap.mp hw
      obtain ⟨c, -, hc⟩ := List.mem_filterMap.mp hr
      obtain ⟨p1, b1, m1⟩ := r
      exact (decodeContour_ids G cfg x.1 c p1 b1 m1 hc).2.2 w hrw
  · intro o cfg0 hok
    simp only [DB.new, Except.ok.injEq] at hok
    subst hok
    unfold dynConfNew
    split
    · rename_i hn
      rw [List.length_take]
      omega
    · rename_i hn
      rw [List.length_append, List.length_replicate]
      omega

/-- C10 witness: a two-entry table with the same class-0 threshold yields
the identical output on the concrete witness batch. -/
theorem class_zero_only_witness :
    postprocess extWit geomWit { cfgWit with confs := [3 / 10, 9 / 10] }
        xs1Wit =
      postprocess extWit geomWit cfgWit xs1Wit :=
  (class_zero_only extWit geomWit cfgWit xs1Wit [3 / 10, 9 / 10]
    (by with_unfolding_all decide)).1

/-- C4 counterexample: with the default threshold 0.2, a pixel of value 0.5
is mapped to 127, so the mask handed to contour extraction is not binary
with values 0 or 1. -/
theorem mask_not_binary_cex :
    binarizePixel (2 / 10) (1 / 2) = 127 ∧
    ¬(binarizePixel (2 / 10) (1 / 2) = 0 ∨
      binarizePixel (2 / 10) (1 / 2) = 1) := by
  with_unfolding_all decide

/-- C4 amended: a pixel at most the binary threshold maps to 0 and a pixel
above it maps to the saturating u8 cast of 255 times its value — an 8-bit
grayscale value, not restricted to 0 or 1 — and contour extraction is run
with foreground threshold 1 on the bilinearly upscaled grayscale buffer. -/
theorem mask_grayscale_amended (cfg : DBCfg) (luma : List ℚ) (i : Nat) :
    (dbMask cfg luma).get? i =
      (luma.get? i).map
        (fun x => if x ≤ cfg.binary_thresh then 0 else toU8 (x * 255)) ∧
    (∀ n ∈ dbMask cfg luma, n ≤ 255) ∧
    contourThreshold = 1 := by
  refine ⟨?_, ?_, rfl⟩
  · rw [dbMask, List.get?_map]
    rfl
  · intro n hn
    rw [dbMask] at hn
    obtain ⟨x, -, hx⟩ := List.mem_map.mp hn
    subst hx
    unfold binarizePixel toU8
    split
    · omega
    · split
      · omega
      · exact Nat.min_le_left 255 _

/-- C6 counterexample: `DB::new` accepts a negative binary threshold and
succeeds instead of returning an error. -/
theorem dbnew_accepts_negative_cex :
    DB.new optsNeg = Except.ok cfgNeg ∧ cfgNeg.binary_thresh < 0 := by
  constructor
  · with_unfolding_all rfl
  · with_unfolding_all decide

/-- C6 amended: `DB::new` applies the documented defaults (binary_thresh
0.2, unclip_ratio 1.5, min_width 12, min_height 5) when the options omit
them, but performs no range validation: any supplied value, a negative
threshold included, is accepted as-is and construction succeeds. -/
theorem dbnew_defaults_no_validation (o : Options) :
    (DB.new o).isOk = true ∧
    (DB.new { o with binary_thresh := none }).map DBCfg.binary_thresh =
      Except.ok (2 / 10) ∧
    (DB.new { o with unclip_r := none }).map DBCfg.unclip_r =
      Except.ok (3 / 2) ∧
    (DB.new { o with min_width := none }).map DBCfg.min_width =
      Except.ok 12 ∧
    (DB.new { o with min_height := none }).map DBCfg.min_height =
      Except.ok 5 ∧
    ∀ q : ℚ, (DB.new { o with binary_thresh := some q }).map
      DBCfg.binary_thresh = Except.ok q :=
  ⟨rfl, rfl, rfl, rfl, rfl, fun _ => rfl⟩

end Usls
